import Mathlib

set_option maxRecDepth 8000

/-!
# Verification of a CHIP-8 emulator core

Shallow embedding of the emulator's three components (`src/lsfr.rs`,
`src/display.rs`, `src/chip8.rs`) and proofs about them.

Machine integers are modelled as `Nat` with explicit wrap-around
(`% 256` for `u8`, `% 65536` for `u16`) exactly where the source
performs wrapping arithmetic.  The two large fixed-size arrays
(`memory: [u8; 4096]`, `video: [u32; 2048]`) are modelled as total
functions `Nat → Nat` read at their in-range addresses, with the
source's bounds (4096, 2048) appearing explicitly in the panic guards;
the small arrays (`registers`, `stack`, `keypad`, each of length 16)
are `List Nat`.  Code paths that panic in the source (unknown opcode,
stack under/overflow via unchecked indexing, out-of-bounds memory
access) are modelled as `none`: an `Option` result stands for "the
machine survives the instruction".
-/

/-! ## `src/lsfr.rs` : the linear-feedback shift register -/

/-- The fixed construction-time seed (`Lsfr::new`, `Self(0x1234)`).
The state is the 16-bit shift register contents. -/
def Lsfr.new : Nat := 0x1234

/-- `Lsfr::get`: one feedback step.  Returns the produced bit and the
next state.  Mirrors
`bit = (s ^ (s >> 2) ^ (s >> 3) ^ (s >> 5)) & 1; s = (s >> 1) | (bit << 15)`. -/
def Lsfr.get (s : Nat) : Nat × Nat :=
  let bit := (s ^^^ (s >>> 2) ^^^ (s >>> 3) ^^^ (s >>> 5)) &&& 1
  (bit, (s >>> 1) ||| (bit <<< 15))

/-- `Lsfr::gen`: compose eight feedback bits, least significant first
(`r += self.get() << i` for `i in 0..8`).  Returns the byte and the
next state. -/
def Lsfr.gen (s : Nat) : Nat × Nat :=
  (List.range 8).foldl
    (fun (p : Nat × Nat) i =>
      let g := Lsfr.get p.2
      (p.1 + (g.1 <<< i), g.2))
    (0, s)

/-- The n-th byte produced from state `s` by repeated `gen` calls. -/
def Lsfr.nthByte (s : Nat) : Nat → Nat
  | 0 => (Lsfr.gen s).1
  | n + 1 => Lsfr.nthByte (Lsfr.gen s).2 n

/-! ## `src/display.rs` : the framebuffer -/

/-- `Display`: `VIDEO_HEIGHT * VIDEO_WIDTH = 32 * 64` single-bit cells
(stored one `u32` each in the source) plus the dirty flag.  The flat
cell array is modelled as a function from the cell index; the code
only ever touches indices `< 2048`. -/
structure Display where
  video : Nat → Nat
  dirty : Bool

/-- `Display::new`: all cells zero, dirty flag already `true`. -/
def Display.new : Display :=
  { video := fun _ => 0, dirty := true }

/-- The bit test of the draw loop: `byte & (0x80 >> i) != 0`. -/
def Display.bitOf (byte i : Nat) : Bool :=
  byte &&& (0x80 >>> i) != 0

/-- Destination cell of sprite row `j`, column `i`, drawn at
`(x_pos, y_pos)`:
`y = (y_pos + j) % VIDEO_HEIGHT`, `x = (x_pos + i) % VIDEO_WIDTH`,
cell `y * VIDEO_WIDTH + x`. -/
def Display.targetCell (x_pos y_pos j i : Nat) : Nat :=
  ((y_pos + j) % 32) * 64 + ((x_pos + i) % 64)

/-- Body of the draw loop for one set bit targeting cell `k`: record a
collision if the cell is already 1, then XOR the cell with 1.  State is
(video, collision). -/
def Display.drawPixel (st : (Nat → Nat) × Nat) (k : Nat) : (Nat → Nat) × Nat :=
  (fun a => if a = k then st.1 k ^^^ 1 else st.1 a,
   if st.1 k = 1 then 1 else st.2)

/-- `Display::draw`: XOR-blit `bytes` (one byte per row, most
significant bit leftmost) at `(x_pos, y_pos)` with wrap-around on both
axes; sets the dirty flag; returns the new display and the collision
flag. -/
def Display.draw (d : Display) (x_pos y_pos : Nat) (bytes : List Nat) :
    Display × Nat :=
  let st := bytes.enum.foldl
    (fun st jb =>
      (List.range 8).foldl
        (fun st i =>
          if Display.bitOf jb.2 i then
            Display.drawPixel st (Display.targetCell x_pos y_pos jb.1 i)
          else st)
        st)
    (d.video, 0)
  ({ video := st.1, dirty := true }, st.2)

/-- `Display::clear`: zero every cell.  Note: the source does **not**
touch the dirty flag here (`self.video.iter_mut().for_each(|i| *i = 0)`
is the whole body). -/
def Display.clear (d : Display) : Display :=
  { d with video := fun _ => 0 }

/-- `Display::is_dirty`. -/
def Display.is_dirty (d : Display) : Bool := d.dirty

/-- `Display::set_clean`. -/
def Display.set_clean (d : Display) : Display := { d with dirty := false }

/-! ## `src/chip8.rs` : the machine -/

/-- The machine state (`struct Chip8`). -/
structure Chip8 where
  registers : List Nat
  memory : Nat → Nat
  index : Nat
  pc : Nat
  stack : List Nat
  sp : Nat
  delay_timer : Nat
  sound_timer : Nat
  keypad : List Nat
  display : Display
  lsfr : Nat

/-- The program-counter effect of one instruction (`enum PC`). -/
inductive PCEffect where
  | Next : PCEffect
  | Skip : PCEffect
  | Jump : Nat → PCEffect
  deriving Repr, DecidableEq

/-- One store into the byte array: `memory[a] = v`. -/
def Chip8.writeMem (m : Nat → Nat) (a v : Nat) : Nat → Nat :=
  fun b => if b = a then v else m b

/-- `Chip8::FONTSET`: the 80-byte glyph table. -/
def Chip8.FONTSET : List Nat :=
  [0xF0, 0x90, 0x90, 0x90, 0xF0,
   0x20, 0x60, 0x20, 0x20, 0x70,
   0xF0, 0x10, 0xF0, 0x80, 0xF0,
   0xF0, 0x10, 0xF0, 0x10, 0xF0,
   0x90, 0x90, 0xF0, 0x10, 0x10,
   0xF0, 0x80, 0xF0, 0x10, 0xF0,
   0xF0, 0x80, 0xF0, 0x90, 0xF0,
   0xF0, 0x10, 0x20, 0x40, 0x40,
   0xF0, 0x90, 0xF0, 0x90, 0xF0,
   0xF0, 0x90, 0xF0, 0x10, 0xF0,
   0xF0, 0x90, 0xF0, 0x90, 0x90,
   0xE0, 0x90, 0xE0, 0x90, 0xE0,
   0xF0, 0x80, 0x80, 0x80, 0xF0,
   0xE0, 0x90, 0x90, 0x90, 0xE0,
   0xF0, 0x80, 0xF0, 0x80, 0xF0,
   0xF0, 0x80, 0xF0, 0x80, 0x80]

/-- Write the bytes `bs` into `m` starting at address `base`
(the fontset-copy loop of `start_memory` and the ROM copy of
`read_rom` both have this shape). -/
def Chip8.storeBytes (m : Nat → Nat) (base : Nat) (bs : List Nat) : Nat → Nat :=
  bs.enum.foldl (fun m p => Chip8.writeMem m (base + p.1) p.2) m

/-- `Chip8::start_memory`: 4096 zero bytes with the glyph table copied
to `FONTSET_START_ADDRESS = 0x50`. -/
def Chip8.start_memory : Nat → Nat :=
  Chip8.storeBytes (fun _ => 0) 0x50 Chip8.FONTSET

/-- The machine state `Chip8::read_rom` builds once the image bytes
have been obtained.  `f.read(&mut memory[Self::START_ADDRESS..])`
copies at most `4096 - 0x200 = 3584` bytes (a `read` into a slice of
that length never fails because the source is longer; the excess is
simply not read). -/
def Chip8.load (rom : List Nat) : Chip8 :=
  { registers := List.replicate 16 0
    memory := Chip8.storeBytes Chip8.start_memory 0x200 (rom.take 3584)
    index := 0
    pc := 0x200
    stack := List.replicate 16 0
    sp := 0
    delay_timer := 0
    sound_timer := 0
    keypad := List.replicate 16 0
    display := Display.new
    lsfr := Lsfr.new }

/-- `Chip8::read_rom`, given the image bytes.  The only failure path
in the source is the I/O error of `File::open`/`read` (an unreadable
file), which is outside the byte-level model: for a readable image the
function always returns `Ok`.  There is no size check. -/
def Chip8.read_rom (rom : List Nat) : Except String Chip8 :=
  .ok (Chip8.load rom)

/-- The helper `nnn(n1, n2, n3) = (n1 << 8) + (n2 << 4) + n3`. -/
def Chip8.nnn (n1 n2 n3 : Nat) : Nat := n1 * 256 + n2 * 16 + n3

/-- The helper `var(x1, x2) = (x1 << 4) + x2`. -/
def Chip8.var (x1 x2 : Nat) : Nat := x1 * 16 + x2

/-- The `Fx0A` key scan: first index holding 1, scanning upwards
(`for (n, &i) in self.keypad.iter().enumerate() { if i == 1 { ... break } }`).
`n` is the index of the head of `l`. -/
def Chip8.firstPressed : List Nat → Nat → Option Nat
  | [], _ => none
  | k :: rest, n => if k = 1 then some n else Chip8.firstPressed rest (n + 1)

/-- The big opcode dispatch of `Chip8::process_instruction`, after the
four nibbles `o1 o2 o3 o4` have been decoded.  The source is a single
`match` on the nibble tuple; since no two of its patterns overlap, it
is dispatched here by the first nibble with a secondary match on the
remaining nibbles inside each family, every non-matching pattern
falling through to the panicking arm (`none`).  In the `x`/`y`/`kk`
families, `o2` is the register nibble `x`, `o3` is `y` (or the high
immediate nibble) and `o4` is the low immediate nibble.  Returns the
mutated state and the `PC` effect, or `none` where the source panics
(unknown opcode, or an out-of-bounds stack/keypad/memory index). -/
def Chip8.execOp (c : Chip8) (o1 o2 o3 o4 : Nat) : Option (Chip8 × PCEffect) :=
  match o1 with
  | 0x0 =>
      match o2, o3, o4 with
      | 0x0, 0xE, 0x0 =>
          some ({ c with display := c.display.clear }, .Next)
      | 0x0, 0xE, 0xE =>
          if c.sp = 0 then none
          else
            match c.stack.get? (c.sp - 1) with
            | none => none
            | some pc => some ({ c with sp := c.sp - 1 }, .Jump (pc + 2))
      | _, _, _ => none
  | 0x1 =>
      some (c, .Jump (Chip8.nnn o2 o3 o4))
  | 0x2 =>
      if c.stack.length ≤ c.sp then none
      else
        some ({ c with stack := c.stack.set c.sp (c.pc % 65536),
                       sp := c.sp + 1 },
              .Jump (Chip8.nnn o2 o3 o4))
  | 0x3 =>
      some (c, if c.registers.getD o2 0 = Chip8.var o3 o4 then .Skip else .Next)
  | 0x4 =>
      some (c, if c.registers.getD o2 0 ≠ Chip8.var o3 o4 then .Skip else .Next)
  | 0x5 =>
      match o4 with
      | 0x0 =>
          some (c, if c.registers.getD o2 0 = c.registers.getD o3 0 then .Skip
                   else .Next)
      | _ => none
  | 0x6 =>
      some ({ c with registers := c.registers.set o2 (Chip8.var o3 o4) }, .Next)
  | 0x7 =>
      let v := (c.registers.getD o2 0 + Chip8.var o3 o4) % 256
      some ({ c with registers := c.registers.set o2 v }, .Next)
  | 0x8 =>
      match o4 with
      | 0x0 =>
          some ({ c with registers := c.registers.set o2 (c.registers.getD o3 0) },
                .Next)
      | 0x1 =>
          let v := c.registers.getD o2 0 ||| c.registers.getD o3 0
          some ({ c with registers := c.registers.set o2 v }, .Next)
      | 0x2 =>
          let v := c.registers.getD o2 0 &&& c.registers.getD o3 0
          some ({ c with registers := c.registers.set o2 v }, .Next)
      | 0x3 =>
          let v := c.registers.getD o2 0 ^^^ c.registers.getD o3 0
          some ({ c with registers := c.registers.set o2 v }, .Next)
      | 0x4 =>
          let s := c.registers.getD o2 0 + c.registers.getD o3 0
          let r1 := c.registers.set 0xF (if 0xFF < s then 1 else 0)
          some ({ c with registers := r1.set o2 (s % 256) }, .Next)
      | 0x5 =>
          let d := (c.registers.getD o2 0 + 65536 - c.registers.getD o3 0) % 65536
          let flag := c.registers.getD o2 0 < c.registers.getD o3 0
          let r1 := c.registers.set 0xF (if flag then 0 else 1)
          some ({ c with registers := r1.set o2 (d % 256) }, .Next)
      | 0x6 =>
          let r1 := c.registers.set 0xF (c.registers.getD o2 0 &&& 1)
          some ({ c with registers := r1.set o2 (r1.getD o2 0 / 2) }, .Next)
      | 0x7 =>
          let vx := c.registers.getD o2 0
          let vy := c.registers.getD o3 0
          let d := (vy + 256 - vx) % 256
          let r1 := c.registers.set 0xF (if vy < vx then 0 else 1)
          some ({ c with registers := r1.set o2 d }, .Next)
      | 0xE =>
          let r1 := c.registers.set 0xF (c.registers.getD o2 0 >>> 7)
          some ({ c with registers := r1.set o2 ((r1.getD o2 0 * 2) % 256) },
                .Next)
      | _ => none
  | 0x9 =>
      match o4 with
      | 0x0 =>
          some (c, if c.registers.getD o2 0 ≠ c.registers.getD o3 0 then .Skip
                   else .Next)
      | _ => none
  | 0xA =>
      some ({ c with index := Chip8.nnn o2 o3 o4 }, .Next)
  | 0xB =>
      some (c, .Jump (Chip8.nnn o2 o3 o4))
  | 0xC =>
      let g := Lsfr.gen c.lsfr
      some ({ c with registers := c.registers.set o2 (g.1 &&& Chip8.var o3 o4),
                     lsfr := g.2 },
            .Next)
  | 0xD =>
      if 4096 < c.index + o4 then none
      else
        let bytes := (List.range o4).map (fun k => c.memory (c.index + k))
        let r := c.display.draw (c.registers.getD o2 0) (c.registers.getD o3 0)
          bytes
        some ({ c with display := r.1, registers := c.registers.set 0xF r.2 },
              .Next)
  | 0xE =>
      match o3, o4 with
      | 0x9, 0xE =>
          (match c.keypad.get? (c.registers.getD o2 0) with
           | none => none
           | some k => some (c, if k = 1 then .Skip else .Next))
      | 0xA, 0x1 =>
          (match c.keypad.get? (c.registers.getD o2 0) with
           | none => none
           | some k => some (c, if k ≠ 1 then .Skip else .Next))
      | _, _ => none
  | 0xF =>
      match o3, o4 with
      | 0x0, 0x7 =>
          some ({ c with registers := c.registers.set o2 c.delay_timer }, .Next)
      | 0x0, 0xA =>
          (match Chip8.firstPressed c.keypad 0 with
           | some n => some ({ c with registers := c.registers.set o2 n }, .Next)
           | none => some (c, .Jump c.pc))
      | 0x1, 0x5 =>
          some ({ c with delay_timer := c.registers.getD o2 0 }, .Next)
      | 0x1, 0x8 =>
          some ({ c with sound_timer := c.registers.getD o2 0 }, .Next)
      | 0x1, 0xE =>
          some ({ c with index := c.index + c.registers.getD o2 0 }, .Next)
      | 0x2, 0x9 =>
          some ({ c with index := 0x50 + 5 * c.registers.getD o2 0 }, .Next)
      | 0x3, 0x3 =>
          if 4096 ≤ c.index + 2 then none
          else
            let vx := c.registers.getD o2 0
            let m1 := Chip8.writeMem c.memory c.index (vx / 100 % 10)
            let m2 := Chip8.writeMem m1 (c.index + 1) (vx / 10 % 10)
            let m3 := Chip8.writeMem m2 (c.index + 2) (vx % 10)
            some ({ c with memory := m3 }, .Next)
      | 0x5, 0x5 =>
          if 4096 ≤ c.index + o2 then none
          else
            let m :=
              (List.range (o2 + 1)).foldl
                (fun m n => Chip8.writeMem m (c.index + n) (c.registers.getD n 0))
                c.memory
            some ({ c with memory := m }, .Next)
      | 0x6, 0x5 =>
          if 4096 ≤ c.index + o2 then none
          else
            let r :=
              (List.range (o2 + 1)).foldl
                (fun r n => r.set n (c.memory (c.index + n))) c.registers
            some ({ c with registers := r }, .Next)
      | _, _ => none
  | _ => none

/-- Apply the `PC` effect chosen by the dispatch
(`PC::Next => pc += 2, PC::Skip => pc += 4, PC::Jump(v) => pc = v`). -/
def Chip8.applyPC (c : Chip8) (p : PCEffect) : Chip8 :=
  match p with
  | .Next => { c with pc := c.pc + 2 }
  | .Skip => { c with pc := c.pc + 4 }
  | .Jump v => { c with pc := v }

/-- `Chip8::process_instruction`: decode the 16-bit instruction into
four nibbles (big-endian: high byte first) and dispatch, then apply
the program-counter effect. -/
def Chip8.process_instruction (c : Chip8) (instruction : Nat) : Option Chip8 :=
  let hi := instruction / 256 % 256
  let lo := instruction % 256
  (Chip8.execOp c (hi / 16) (hi % 16) (lo / 16) (lo % 16)).map
    (fun p => Chip8.applyPC p.1 p.2)

/-- `Chip8::cycle`: fetch big-endian 16-bit opcode at `pc` (the
indexing into the 4096-byte array panics when `pc + 1 ≥ 4096`), execute
it, then decrement each nonzero timer. -/
def Chip8.cycle (c : Chip8) : Option Chip8 :=
  if c.pc + 1 < 4096 then
    match c.process_instruction (c.memory c.pc * 256 + c.memory (c.pc + 1)) with
    | none => none
    | some c1 =>
        some { c1 with
          delay_timer := if 0 < c1.delay_timer then c1.delay_timer - 1
                         else c1.delay_timer,
          sound_timer := if 0 < c1.sound_timer then c1.sound_timer - 1
                         else c1.sound_timer }
  else none

/-- `Chip8::press_key`. -/
def Chip8.press_key (c : Chip8) (idx : Nat) : Chip8 :=
  { c with keypad := c.keypad.set idx 1 }

/-- `Chip8::lift_key`. -/
def Chip8.lift_key (c : Chip8) (idx : Nat) : Chip8 :=
  { c with keypad := c.keypad.set idx 0 }

/-- `Chip8::is_dirty`. -/
def Chip8.is_dirty (c : Chip8) : Bool := c.display.is_dirty

/-- `Chip8::set_clean`. -/
def Chip8.set_clean (c : Chip8) : Chip8 :=
  { c with display := c.display.set_clean }

/-! ## Helper lemmas -/

/-- Reading back the slot just written in a 16-slot array. -/
theorem getD_set_self : ∀ (l : List Nat) (n a : Nat), n < l.length →
    (l.set n a).getD n 0 = a := by
  intro l
  induction l with
  | nil => intro n a h; simp at h
  | cons b t ih =>
      intro n a h
      cases n with
      | zero => rfl
      | succ m => simpa using ih m a (by simpa using h)

/-- Writing one slot leaves the others unchanged. -/
theorem getD_set_ne : ∀ (l : List Nat) (n m a : Nat), n ≠ m →
    (l.set n a).getD m 0 = l.getD m 0 := by
  intro l
  induction l with
  | nil => intro n m a _; simp
  | cons b t ih =>
      intro n m a h
      cases n with
      | zero =>
          cases m with
          | zero => exact absurd rfl h
          | succ m' => simp
      | succ n' =>
          cases m with
          | zero => simp
          | succ m' => simpa using ih n' m' a (by omega)

/-- `get?` version of `getD_set_self`, for the call stack. -/
theorem get?_set_self : ∀ (l : List Nat) (n a : Nat), n < l.length →
    (l.set n a).get? n = some a := by
  intro l
  induction l with
  | nil => intro n a h; simp at h
  | cons b t ih =>
      intro n a h
      cases n with
      | zero => rfl
      | succ m => simpa using ih m a (by simpa using h)

/-- Decoding an instruction assembled from two bytes. -/
theorem process_instruction_bytes (c : Chip8) (hi lo : Nat)
    (hhi : hi < 256) (hlo : lo < 256) :
    c.process_instruction (hi * 256 + lo)
      = (Chip8.execOp c (hi / 16) (hi % 16) (lo / 16) (lo % 16)).map
          (fun p => Chip8.applyPC p.1 p.2) := by
  have e1 : (hi * 256 + lo) / 256 % 256 = hi := by omega
  have e2 : (hi * 256 + lo) % 256 = lo := by omega
  simp only [Chip8.process_instruction, e1, e2]

/-- Decoding an instruction assembled from four nibbles. -/
theorem process_instruction_nibbles (c : Chip8) (o1 o2 o3 o4 : Nat)
    (h1 : o1 < 16) (h2 : o2 < 16) (h3 : o3 < 16) (h4 : o4 < 16) :
    c.process_instruction (o1 * 4096 + o2 * 256 + o3 * 16 + o4)
      = (Chip8.execOp c o1 o2 o3 o4).map (fun p => Chip8.applyPC p.1 p.2) := by
  have e : o1 * 4096 + o2 * 256 + o3 * 16 + o4
      = (o1 * 16 + o2) * 256 + (o3 * 16 + o4) := by ring
  rw [e, process_instruction_bytes c _ _ (by omega) (by omega)]
  have e1 : (o1 * 16 + o2) / 16 = o1 := by omega
  have e2 : (o1 * 16 + o2) % 16 = o2 := by omega
  have e3 : (o3 * 16 + o4) / 16 = o3 := by omega
  have e4 : (o3 * 16 + o4) % 16 = o4 := by omega
  rw [e1, e2, e3, e4]

/-! ## C9 : determinism of the random byte source -/

/-- First freshly constructed generator instance. -/
def lsfrA : Nat := Lsfr.new

/-- Second freshly constructed generator instance. -/
def lsfrB : Nat := Lsfr.new

/-- C9: the generator is a pure function of its 16-bit state and the
construction seed is the fixed constant `0x1234`, so two freshly
constructed instances produce identical byte sequences; no entropy
enters from outside (in the model, `gen` has no input other than the
state).  The second conjunct pins the embedding to the repository's own
regression vector (`tests::it_works2`). -/
theorem c9_lsfr_deterministic :
    (∀ n, Lsfr.nthByte lsfrA n = Lsfr.nthByte lsfrB n)
  ∧ [Lsfr.nthByte lsfrA 0, Lsfr.nthByte lsfrA 1, Lsfr.nthByte lsfrA 2,
     Lsfr.nthByte lsfrA 3, Lsfr.nthByte lsfrA 4] = [110, 36, 219, 80, 112] :=
  ⟨fun _ => rfl, by decide⟩

/-! ## C10 : the dirty flag starts out true -/

/-- C10: immediately after construction, before any instruction or
framebuffer mutation, `is_dirty` already reports `true`:
`Display::new` initializes the flag to `true`. -/
theorem c10_initial_dirty (rom : List Nat) :
    (Chip8.load rom).is_dirty = true ∧ Display.new.dirty = true :=
  ⟨rfl, rfl⟩

/-! ## C1 : oversized images do not fail construction -/

/-- C1 counterexample: an image of 3585 bytes (one more than
`4096 - 0x200`) still constructs successfully — `read` fills at most
the 3584 remaining memory bytes and reports how many bytes it read; no
size check exists, so no load error is produced. -/
theorem c1_counterexample :
    (Chip8.read_rom (List.replicate 3585 1)).isOk = true := by decide

/-- C1 (amended): construction succeeds for every readable image; an
oversized image is silently truncated — the machine state depends only
on the first 3584 bytes.  An empty image succeeds, its first fetch
reads opcode `0000`, and `0000` is an unrecognized instruction
(the dispatch falls through to the panicking arm, modelled `none`). -/
theorem c1_load_amended (rom : List Nat) :
    Chip8.read_rom rom = .ok (Chip8.load rom)
  ∧ Chip8.load rom = Chip8.load (rom.take 3584)
  ∧ (Chip8.load rom).pc = 0x200
  ∧ (Chip8.load []).memory 0x200 * 256 + (Chip8.load []).memory 0x201 = 0
  ∧ Chip8.process_instruction (Chip8.load []) 0 = none := by
  refine ⟨rfl, ?_, rfl, by decide, rfl⟩
  unfold Chip8.load
  rw [List.take_take, Nat.min_self]

/-! ## C2 : `00E0` clears the cells but does not set the dirty flag -/

/-- C2 (code bug): executing `00E0` on a machine whose dirty flag has
been acknowledged (`set_clean`) leaves every framebuffer cell 0 as the
claim states, but the dirty flag stays `false`: `Display::clear` never
touches the flag, unlike `Display::draw`. -/
theorem c2_clear_dirty_bug :
    ((Chip8.load []).set_clean.process_instruction 0x00E0).map
        (fun c => c.display.dirty) = some false
  ∧ ((Chip8.load []).set_clean.process_instruction 0x00E0).map
        (fun c => c.display.video) = some (fun _ => 0) :=
  ⟨rfl, rfl⟩

/-! ## C3 : the flag write is overwritten when x = 15 -/

/-- Flag slot after `registers[0xF] = f; registers[x] = v` with `x ≠ 15`. -/
theorem getD15_set_set (l : List Nat) (f v x : Nat) (hx : x ≠ 15)
    (hlen : l.length = 16) : ((l.set 15 f).set x v).getD 15 0 = f := by
  rw [getD_set_ne _ x 15 v hx, getD_set_self _ 15 f (by rw [hlen]; omega)]

/-- Result slot after `registers[0xF] = f; registers[x] = v`. -/
theorem getDx_set_set (l : List Nat) (f v x : Nat) (hx : x < 16)
    (hlen : l.length = 16) : ((l.set 15 f).set x v).getD x 0 = v :=
  getD_set_self _ x v (by rw [List.length_set, hlen]; omega)

/-- C3 counterexample: with `V15 = 250`, `V0 = 10`, instruction `8F04`
(so `x = 15`) must leave register 15 holding the carry flag 1 according
to the claim, but the code writes the flag first and then overwrites
register 15 with the 8-bit sum 4. -/
theorem c3_counterexample :
    (Chip8.process_instruction
        { Chip8.load [] with
          registers := ((List.replicate 16 0).set 0 10).set 15 250 } 0x8F04).map
      (fun c => c.registers.getD 15 0) = some 4
  ∧ some (4 : Nat) ≠ some (if 255 < 250 + 10 then 1 else 0) := by
  constructor
  · decide
  · decide

/-- C3 (amended): for the five flag-producing instructions `8xy4`,
`8xy5`, `8xy6`, `8xy7`, `8xyE` with destination `x ≠ 15`, register 15
ends the instruction holding the carry/borrow/shift-out flag (this
includes `y = 15`, where register 15 is an operand).  When `x = 15` the
subsequent result write overwrites the flag (see the counterexample). -/
theorem c3_flag_amended (c : Chip8) (x y : Nat)
    (_hx : x < 16) (_hy : y < 16) (hx15 : x ≠ 15)
    (hlen : c.registers.length = 16) :
    ((Chip8.execOp c 8 x y 4).map (fun p => p.1.registers.getD 15 0)
        = some (if 255 < c.registers.getD x 0 + c.registers.getD y 0 then 1 else 0))
  ∧ ((Chip8.execOp c 8 x y 5).map (fun p => p.1.registers.getD 15 0)
        = some (if c.registers.getD x 0 < c.registers.getD y 0 then 0 else 1))
  ∧ ((Chip8.execOp c 8 x y 6).map (fun p => p.1.registers.getD 15 0)
        = some (c.registers.getD x 0 &&& 1))
  ∧ ((Chip8.execOp c 8 x y 7).map (fun p => p.1.registers.getD 15 0)
        = some (if c.registers.getD y 0 < c.registers.getD x 0 then 0 else 1))
  ∧ ((Chip8.execOp c 8 x y 14).map (fun p => p.1.registers.getD 15 0)
        = some (c.registers.getD x 0 >>> 7)) := by
  refine ⟨?_, ?_, ?_, ?_, ?_⟩
  · exact congrArg some (getD15_set_set c.registers _ _ x hx15 hlen)
  · exact congrArg some (getD15_set_set c.registers _ _ x hx15 hlen)
  · exact congrArg some (getD15_set_set c.registers _ _ x hx15 hlen)
  · exact congrArg some (getD15_set_set c.registers _ _ x hx15 hlen)
  · exact congrArg some (getD15_set_set c.registers _ _ x hx15 hlen)

/-- Witness for C3 (amended) at `x = 0`, `y = 1` on the freshly loaded
machine. -/
theorem c3_flag_amended_witness :
    (Chip8.execOp (Chip8.load []) 8 0 1 4).map (fun p => p.1.registers.getD 15 0)
      = some (if 255 < (Chip8.load []).registers.getD 0 0
                      + (Chip8.load []).registers.getD 1 0 then 1 else 0) :=
  (c3_flag_amended (Chip8.load []) 0 1 (by decide) (by decide) (by decide)
    (by decide)).1

/-! ## C8 : 8xy4 / 8xy5 arithmetic and flags for x ≠ 15 -/

/-- C8: for `x ≠ 15` (and any `y`, including `y = 15`), `8xy4` stores
the low 8 bits of `Vx + Vy` into `Vx` and sets register 15 to 1 exactly
when the 9-bit sum exceeds 255; `8xy5` stores the 8-bit wrapping
difference `Vx - Vy` into `Vx` and sets register 15 to 1 exactly when
`Vx ≥ Vy` (no borrow). -/
theorem c8_add_sub (c : Chip8) (x y : Nat)
    (hx : x < 16) (_hy : y < 16) (hx15 : x ≠ 15)
    (hlen : c.registers.length = 16)
    (hvx : c.registers.getD x 0 < 256) (hvy : c.registers.getD y 0 < 256) :
    ((Chip8.execOp c 8 x y 4).map
        (fun p => (p.1.registers.getD x 0, p.1.registers.getD 15 0))
      = some ((c.registers.getD x 0 + c.registers.getD y 0) % 256,
              if 255 < c.registers.getD x 0 + c.registers.getD y 0 then 1 else 0))
  ∧ ((Chip8.execOp c 8 x y 5).map
        (fun p => (p.1.registers.getD x 0, p.1.registers.getD 15 0))
      = some ((c.registers.getD x 0 + 256 - c.registers.getD y 0) % 256,
              if c.registers.getD y 0 ≤ c.registers.getD x 0 then 1 else 0)) := by
  constructor
  · show some
        ((((c.registers.set 15
              (if 255 < c.registers.getD x 0 + c.registers.getD y 0 then 1 else 0)).set x
            ((c.registers.getD x 0 + c.registers.getD y 0) % 256)).getD x 0),
         (((c.registers.set 15
              (if 255 < c.registers.getD x 0 + c.registers.getD y 0 then 1 else 0)).set x
            ((c.registers.getD x 0 + c.registers.getD y 0) % 256)).getD 15 0)) = _
    rw [getDx_set_set c.registers _ _ x hx hlen,
        getD15_set_set c.registers _ _ x hx15 hlen]
  · show some
        ((((c.registers.set 15
              (if c.registers.getD x 0 < c.registers.getD y 0 then 0 else 1)).set x
            ((c.registers.getD x 0 + 65536 - c.registers.getD y 0) % 65536 % 256)).getD x 0),
         (((c.registers.set 15
              (if c.registers.getD x 0 < c.registers.getD y 0 then 0 else 1)).set x
            ((c.registers.getD x 0 + 65536 - c.registers.getD y 0) % 65536 % 256)).getD 15 0)) = _
    rw [getDx_set_set c.registers _ _ x hx hlen,
        getD15_set_set c.registers _ _ x hx15 hlen]
    have e1 : (c.registers.getD x 0 + 65536 - c.registers.getD y 0) % 65536 % 256
        = (c.registers.getD x 0 + 256 - c.registers.getD y 0) % 256 := by omega
    have e2 : (if c.registers.getD x 0 < c.registers.getD y 0 then (0 : Nat) else 1)
        = (if c.registers.getD y 0 ≤ c.registers.getD x 0 then 1 else 0) := by
      rcases Nat.lt_or_ge (c.registers.getD x 0) (c.registers.getD y 0) with h | h
      · rw [if_pos h, if_neg (by omega)]
      · rw [if_neg (by omega), if_pos (by omega)]
    rw [e1, e2]

/-- Witness for C8 at the spec's example values 250 and 10
(result 4, flag 1). -/
theorem c8_add_sub_witness :
    (Chip8.execOp
        { Chip8.load [] with
          registers := ((List.replicate 16 0).set 0 250).set 1 10 } 8 0 1 4).map
      (fun p => (p.1.registers.getD 0 0, p.1.registers.getD 15 0)) = some (4, 1) :=
  ((c8_add_sub
      { Chip8.load [] with
        registers := ((List.replicate 16 0).set 0 250).set 1 10 } 0 1
      (by decide) (by decide) (by decide) (by decide) (by decide) (by decide)).1).trans
    (by decide)

/-! ## C6 : 2nnn immediately followed by 00EE -/

/-- The `2nnn` arm: push the call-site `pc` (as `u16`), bump `sp`,
jump to `nnn`. -/
theorem process_call (c : Chip8) (n1 n2 n3 : Nat)
    (h1 : n1 < 16) (h2 : n2 < 16) (h3 : n3 < 16)
    (hguard : ¬ (c.stack.length ≤ c.sp)) :
    c.process_instruction (0x2000 + Chip8.nnn n1 n2 n3)
      = some { c with stack := c.stack.set c.sp (c.pc % 65536), sp := c.sp + 1,
                      pc := Chip8.nnn n1 n2 n3 } := by
  have e : (0x2000 : Nat) + Chip8.nnn n1 n2 n3
      = 2 * 4096 + n1 * 256 + n2 * 16 + n3 := by
    unfold Chip8.nnn; ring
  rw [e, process_instruction_nibbles c 2 n1 n2 n3 (by omega) h1 h2 h3]
  show (if c.stack.length ≤ c.sp then none
        else some ({ c with stack := c.stack.set c.sp (c.pc % 65536),
                            sp := c.sp + 1 },
                   PCEffect.Jump (Chip8.nnn n1 n2 n3))).map
      (fun p => Chip8.applyPC p.1 p.2) = _
  rw [if_neg hguard]
  rfl

/-- The `00EE` arm: pop the stack top `v`, drop `sp`, jump to `v + 2`. -/
theorem process_ret (c : Chip8) (v : Nat) (hsp : ¬ (c.sp = 0))
    (hget : c.stack.get? (c.sp - 1) = some v) :
    c.process_instruction 0x00EE = some { c with sp := c.sp - 1, pc := v + 2 } := by
  show ((if c.sp = 0 then none
         else
           match c.stack.get? (c.sp - 1) with
           | none => none
           | some pc => some ({ c with sp := c.sp - 1 }, PCEffect.Jump (pc + 2))) :
        Option (Chip8 × PCEffect)).map (fun p => Chip8.applyPC p.1 p.2) = _
  rw [if_neg hsp, hget]
  rfl

/-- C6: from any state with a non-full stack, a `2nnn` call (which
pushes the address of the call instruction itself) followed immediately
by `00EE` (which pops into `pc` and then takes the normal 2-byte step)
leaves `pc` at the call site plus 2 and restores the stack pointer.
The side conditions `c.stack.length = 16` and `c.pc < 65536` are
representation invariants of the source (`stack: [u16; 16]`; `pc` is
stored on the stack as `u16`, and every reachable `pc` is below 4096). -/
theorem c6_call_ret (c : Chip8) (n1 n2 n3 : Nat)
    (h1 : n1 < 16) (h2 : n2 < 16) (h3 : n3 < 16)
    (hsp : c.sp < 16) (hstack : c.stack.length = 16) (hpc : c.pc < 65536) :
    ((c.process_instruction (0x2000 + Chip8.nnn n1 n2 n3)).bind
        (fun c1 => c1.process_instruction 0x00EE)).map (fun c2 => (c2.pc, c2.sp))
      = some (c.pc + 2, c.sp) := by
  rw [process_call c n1 n2 n3 h1 h2 h3 (by omega)]
  show ((({ c with stack := c.stack.set c.sp (c.pc % 65536), sp := c.sp + 1,
                   pc := Chip8.nnn n1 n2 n3 } : Chip8).process_instruction
          0x00EE).map (fun c2 => (c2.pc, c2.sp))) = _
  rw [process_ret _ (c.pc % 65536) (by simp)
      (by
        show (c.stack.set c.sp (c.pc % 65536)).get? (c.sp + 1 - 1) = _
        simpa using get?_set_self c.stack c.sp (c.pc % 65536) (by omega))]
  show some (c.pc % 65536 + 2, c.sp + 1 - 1) = _
  rw [Nat.mod_eq_of_lt hpc, Nat.add_sub_cancel]

/-- Witness for C6 on the freshly loaded machine calling address
`0x020`. -/
theorem c6_call_ret_witness :
    (((Chip8.load []).process_instruction (0x2000 + Chip8.nnn 0 2 0)).bind
        (fun c1 => c1.process_instruction 0x00EE)).map (fun c2 => (c2.pc, c2.sp))
      = some ((Chip8.load []).pc + 2, (Chip8.load []).sp) :=
  c6_call_ret (Chip8.load []) 0 2 0 (by decide) (by decide) (by decide)
    (by decide) (by decide) (by decide)

/-! ## C7 : Fx0A spin-wait semantics -/

/-- The key scan finds nothing when no slot holds 1. -/
theorem firstPressed_none : ∀ (l : List Nat), (∀ v ∈ l, v ≠ 1) →
    ∀ n, Chip8.firstPressed l n = none := by
  intro l
  induction l with
  | nil => intro _ _; rfl
  | cons k t ih =>
      intro h n
      unfold Chip8.firstPressed
      rw [if_neg (h k (by simp))]
      exact ih (fun v hv => h v (by simp [hv])) (n + 1)

/-- The key scan returns the lowest index holding 1. -/
theorem firstPressed_some : ∀ (l : List Nat) (j : Nat), j < l.length →
    l.getD j 0 = 1 → (∀ m, m < j → l.getD m 0 ≠ 1) →
    ∀ n, Chip8.firstPressed l n = some (n + j) := by
  intro l
  induction l with
  | nil => intro j hj; simp at hj
  | cons k t ih =>
      intro j hj h1 hmin n
      unfold Chip8.firstPressed
      cases j with
      | zero =>
          rw [if_pos (by simpa using h1)]
          simp
      | succ j' =>
          have hk : k ≠ 1 := by simpa using hmin 0 (by omega)
          rw [if_neg hk]
          rw [ih j' (by simpa using hj) (by simpa using h1)
                (fun m hm => by simpa using hmin (m + 1) (by omega)) (n + 1)]
          congr 1
          omega

/-- Saturating timer decrement equals truncated subtraction. -/
theorem timer_tick (d : Nat) : (if 0 < d then d - 1 else d) = d - 1 := by
  split <;> omega

/-- The `Fx0A` arm when no key is pressed: spin in place. -/
theorem execOp_fx0a_none (c : Chip8) (x : Nat)
    (hfp : Chip8.firstPressed c.keypad 0 = none) :
    Chip8.execOp c 15 x 0 10 = some (c, PCEffect.Jump c.pc) := by
  show (match Chip8.firstPressed c.keypad 0 with
        | some n => some ({ c with registers := c.registers.set x n }, PCEffect.Next)
        | none => some (c, PCEffect.Jump c.pc)) = _
  rw [hfp]

/-- The `Fx0A` arm when the scan finds index `j`. -/
theorem execOp_fx0a_some (c : Chip8) (x j : Nat)
    (hfp : Chip8.firstPressed c.keypad 0 = some j) :
    Chip8.execOp c 15 x 0 10
      = some ({ c with registers := c.registers.set x j }, PCEffect.Next) := by
  show (match Chip8.firstPressed c.keypad 0 with
        | some n => some ({ c with registers := c.registers.set x n }, PCEffect.Next)
        | none => some (c, PCEffect.Jump c.pc)) = _
  rw [hfp]

/-- C7: when the fetched instruction is `Fx0A` (memory holds `0xF0+x`
then `0x0A` at `pc`):
with no keypad slot equal to 1, `cycle` leaves `pc`, the registers, the
memory and the keypad unchanged — so the next `cycle` fetches the same
instruction — while both timers are still decremented (saturating at
0); with at least one slot pressed, the lowest pressed index `j` is
stored into register `x` and `pc` advances by 2. -/
theorem c7_fx0a (c : Chip8) (x : Nat) (hx : x < 16)
    (hpc : c.pc + 1 < 4096)
    (hhi : c.memory c.pc = 240 + x) (hlo : c.memory (c.pc + 1) = 10)
    (hreg : c.registers.length = 16) :
    ((∀ v ∈ c.keypad, v ≠ 1) →
       (Chip8.cycle c).map
           (fun s => (s.pc, s.registers, s.memory, s.keypad,
                      s.delay_timer, s.sound_timer))
         = some (c.pc, c.registers, c.memory, c.keypad,
                 c.delay_timer - 1, c.sound_timer - 1))
  ∧ (∀ j, j < c.keypad.length → c.keypad.getD j 0 = 1 →
       (∀ m, m < j → c.keypad.getD m 0 ≠ 1) →
       (Chip8.cycle c).map (fun s => (s.pc, s.registers.getD x 0))
         = some (c.pc + 2, j)) := by
  have hdec : c.process_instruction (c.memory c.pc * 256 + c.memory (c.pc + 1))
      = (Chip8.execOp c 15 x 0 10).map (fun p => Chip8.applyPC p.1 p.2) := by
    rw [hhi, hlo, process_instruction_bytes c (240 + x) 10 (by omega) (by omega)]
    have e1 : (240 + x) / 16 = 15 := by omega
    have e2 : (240 + x) % 16 = x := by omega
    rw [e1, e2]
  constructor
  · intro hnone
    unfold Chip8.cycle
    rw [if_pos hpc, hdec,
        execOp_fx0a_none c x (firstPressed_none c.keypad hnone 0)]
    show some (c.pc, c.registers, c.memory, c.keypad,
               (if 0 < c.delay_timer then c.delay_timer - 1 else c.delay_timer),
               (if 0 < c.sound_timer then c.sound_timer - 1 else c.sound_timer))
        = _
    rw [timer_tick, timer_tick]
  · intro j hjlen hj1 hjmin
    unfold Chip8.cycle
    rw [if_pos hpc, hdec,
        execOp_fx0a_some c x j
          (by simpa using firstPressed_some c.keypad j hjlen hj1 hjmin 0)]
    show some (c.pc + 2, (c.registers.set x j).getD x 0) = _
    rw [getD_set_self c.registers x j (by omega)]

/-! ## C4 : the glyph table is not write-protected -/

/-- C4 counterexample: the two-instruction program `A050 F033`
(set index to 0x50, then store the BCD digits of `V0 = 0` at the
index) overwrites glyph-table byte 0x50, which held `0xF0` since
initialization, with 0. -/
theorem c4_counterexample :
    ((Chip8.cycle (Chip8.load [0xA0, 0x50, 0xF0, 0x33])).bind Chip8.cycle).map
        (fun s => s.memory 0x50) = some 0
  ∧ Chip8.start_memory 0x50 = 0xF0 := by
  constructor
  · decide
  · decide

set_option maxHeartbeats 2000000 in
/-- C4 (amended): addresses 0x50–0x9F hold the fixed 80-byte glyph
table at initialization, and every instruction other than `Fx33` and
`Fx55` leaves all of memory — in particular that range — unchanged.
`Fx33`/`Fx55` themselves can overwrite the range when the index
register points into it (see the counterexample): the table is not
write-protected. -/
theorem c4_glyph_table_amended :
    (∀ i ∈ List.range 80,
       Chip8.start_memory (0x50 + i) = Chip8.FONTSET.getD i 0)
  ∧ (∀ (c : Chip8) (o1 o2 o3 o4 : Nat) (p : Chip8 × PCEffect),
       Chip8.execOp c o1 o2 o3 o4 = some p →
       (o1 = 15 → o3 = 3 → o4 = 3 → False) →
       (o1 = 15 → o3 = 5 → o4 = 5 → False) →
       p.1.memory = c.memory) := by
  constructor
  · decide
  · intro c o1 o2 o3 o4 p h hno33 hno55
    revert h
    unfold Chip8.execOp
    repeat' split
    all_goals intro h
    all_goals first
      | exact (hno33 rfl rfl rfl).elim
      | exact (hno55 rfl rfl rfl).elim
      | exact Option.noConfusion h
      | (cases h; rfl)

/-- Witness for C4 (amended): glyph byte 0 and the `00E0` instruction
on the freshly loaded machine. -/
theorem c4_glyph_table_amended_witness :
    Chip8.start_memory (0x50 + 0) = Chip8.FONTSET.getD 0 0
  ∧ ({ Chip8.load [] with
        display := (Chip8.load []).display.clear } : Chip8).memory
      = (Chip8.load []).memory :=
  ⟨c4_glyph_table_amended.1 0 (by decide),
   c4_glyph_table_amended.2 (Chip8.load []) 0 0 14 0 _ rfl
     (fun h1 _ _ => absurd h1 (by decide))
     (fun h1 _ _ => absurd h1 (by decide))⟩

/-- Witness for C7: `F00A` loaded at 0x200, no key pressed. -/
theorem c7_fx0a_witness :
    (Chip8.cycle (Chip8.load [0xF0, 0x0A])).map
        (fun s => (s.pc, s.registers, s.memory, s.keypad,
                   s.delay_timer, s.sound_timer))
      = some ((Chip8.load [0xF0, 0x0A]).pc, (Chip8.load [0xF0, 0x0A]).registers,
              (Chip8.load [0xF0, 0x0A]).memory, (Chip8.load [0xF0, 0x0A]).keypad,
              (Chip8.load [0xF0, 0x0A]).delay_timer - 1,
              (Chip8.load [0xF0, 0x0A]).sound_timer - 1) :=
  (c7_fx0a (Chip8.load [0xF0, 0x0A]) 0 (by decide) (by decide) (by decide)
      (by decide) (by decide)).1 (by decide)

/-! ## C5 : the draw routine -/

/-- The cells targeted by the set bits of sprite row `b` at row
offset `j`. -/
def Display.rowTargets (x_pos y_pos j b : Nat) : List Nat :=
  ((List.range 8).filter (fun i => Display.bitOf b i)).map
    (fun i => Display.targetCell x_pos y_pos j i)

/-- The cells targeted by the set bits of all sprite rows, first row
numbered `j`. -/
def Display.drawTargetsFrom (x_pos y_pos : Nat) : Nat → List Nat → List Nat
  | _, [] => []
  | j, b :: rest =>
      Display.rowTargets x_pos y_pos j b
        ++ Display.drawTargetsFrom x_pos y_pos (j + 1) rest

/-- The cells targeted by the set bits of a sprite. -/
def Display.drawTargets (x_pos y_pos : Nat) (bytes : List Nat) : List Nat :=
  Display.drawTargetsFrom x_pos y_pos 0 bytes

/-- A fold that skips elements failing `p` equals the fold over the
filtered, mapped list. -/
theorem foldl_ite_filter_map {α : Type} (g : α → Nat → α) (p : Nat → Bool)
    (f : Nat → Nat) :
    ∀ (l : List Nat) (st : α),
      l.foldl (fun st i => if p i then g st (f i) else st) st
        = ((l.filter p).map f).foldl g st := by
  intro l
  induction l with
  | nil => intro st; rfl
  | cons a t ih =>
      intro st
      by_cases hp : p a
      · simp only [List.foldl_cons, List.filter_cons, hp, if_pos,
          List.map_cons]
        exact ih _
      · simp only [List.foldl_cons, List.filter_cons, hp, if_neg,
          Bool.false_eq_true, ite_false]
        exact ih _

/-- The double loop of `Display::draw` processes exactly the target
cells of the set bits, in order. -/
theorem drawLoop_eq_targets (x_pos y_pos : Nat) :
    ∀ (bytes : List Nat) (j : Nat) (st : (Nat → Nat) × Nat),
      (List.enumFrom j bytes).foldl
        (fun st jb =>
          (List.range 8).foldl
            (fun st i =>
              if Display.bitOf jb.2 i then
                Display.drawPixel st (Display.targetCell x_pos y_pos jb.1 i)
              else st)
            st)
        st
      = (Display.drawTargetsFrom x_pos y_pos j bytes).foldl
          Display.drawPixel st := by
  intro bytes
  induction bytes with
  | nil => intro j st; rfl
  | cons b rest ih =>
      intro j st
      show (((j, b) :: List.enumFrom (j + 1) rest).foldl _ st) = _
      rw [List.foldl_cons]
      show (List.enumFrom (j + 1) rest).foldl _
          ((List.range 8).foldl
            (fun st i =>
              if Display.bitOf b i then
                Display.drawPixel st (Display.targetCell x_pos y_pos j i)
              else st)
            st) = _
      rw [ih (j + 1), foldl_ite_filter_map Display.drawPixel
            (fun i => Display.bitOf b i)
            (fun i => Display.targetCell x_pos y_pos j i) (List.range 8) st]
      show ((Display.rowTargets x_pos y_pos j b).foldl Display.drawPixel st |>
              (Display.drawTargetsFrom x_pos y_pos (j + 1) rest).foldl
                Display.drawPixel) = _
      rw [← List.foldl_append]
      rfl

/-- `Display::draw` in terms of the target-cell list. -/
theorem draw_eq_targets (d : Display) (x_pos y_pos : Nat) (bytes : List Nat) :
    d.draw x_pos y_pos bytes
      = ({ video := ((Display.drawTargets x_pos y_pos bytes).foldl
              Display.drawPixel (d.video, 0)).1, dirty := true },
         ((Display.drawTargets x_pos y_pos bytes).foldl
            Display.drawPixel (d.video, 0)).2) := by
  unfold Display.draw Display.drawTargets
  rw [show bytes.enum = List.enumFrom 0 bytes from rfl,
      drawLoop_eq_targets x_pos y_pos bytes 0 (d.video, 0)]

/-- Folding `drawPixel` over pairwise-distinct cells XORs exactly those
cells and leaves every other cell unchanged. -/
theorem flips_video : ∀ (ks : List Nat) (v : Nat → Nat) (coll : Nat),
    ks.Nodup → ∀ m, (ks.foldl Display.drawPixel (v, coll)).1 m
      = if m ∈ ks then v m ^^^ 1 else v m := by
  intro ks
  induction ks with
  | nil => intro v coll _ m; simp
  | cons k t ih =>
      intro v coll hnd m
      have hk : k ∉ t := (List.nodup_cons.1 hnd).1
      have hnd' : t.Nodup := (List.nodup_cons.1 hnd).2
      rw [List.foldl_cons, ih (Display.drawPixel (v, coll) k).1
            (Display.drawPixel (v, coll) k).2 hnd' m]
      by_cases hm : m ∈ t
      · have hmk : m ≠ k := fun e => hk (e ▸ hm)
        simp [List.mem_cons, hm, Display.drawPixel, hmk]
      · by_cases hmk : m = k
        · subst hmk
          simp [List.mem_cons, hm, Display.drawPixel]
        · simp [List.mem_cons, hm, hmk, Display.drawPixel]

/-- Two `any` scans agree when the predicates agree on the members. -/
theorem anyCongrMem : ∀ (l : List Nat) (f g : Nat → Bool),
    (∀ a ∈ l, f a = g a) → l.any f = l.any g := by
  intro l
  induction l with
  | nil => intro f g _; rfl
  | cons a t ih =>
      intro f g h
      simp only [List.any_cons, h a (by simp),
        ih f g (fun b hb => h b (by simp [hb]))]

/-- Folding `drawPixel` over pairwise-distinct cells reports a
collision exactly when one of those cells already held 1. -/
theorem flips_collision : ∀ (ks : List Nat) (v : Nat → Nat) (coll : Nat),
    ks.Nodup → (ks.foldl Display.drawPixel (v, coll)).2
      = if ks.any (fun k => v k == 1) then 1 else coll := by
  intro ks
  induction ks with
  | nil => intro v coll _; simp
  | cons k t ih =>
      intro v coll hnd
      have hk : k ∉ t := (List.nodup_cons.1 hnd).1
      have hnd' : t.Nodup := (List.nodup_cons.1 hnd).2
      rw [List.foldl_cons, ih (Display.drawPixel (v, coll) k).1
            (Display.drawPixel (v, coll) k).2 hnd']
      rw [anyCongrMem t (fun a => (Display.drawPixel (v, coll) k).1 a == 1)
            (fun a => v a == 1)
            (fun a ha => by
              have hak : a ≠ k := fun e => hk (e ▸ ha)
              simp [Display.drawPixel, hak])]
      show (if t.any (fun a => v a == 1) then 1
            else if v k = 1 then 1 else coll)
          = if (k :: t).any (fun a => v a == 1) then 1 else coll
      rw [List.any_cons]
      by_cases h1 : v k = 1 <;> by_cases h2 : t.any (fun a => v a == 1) <;>
        simp [h1, h2]

/-- Characterization of the target-cell list. -/
theorem mem_drawTargetsFrom (x_pos y_pos : Nat) :
    ∀ (bytes : List Nat) (j t : Nat),
      t ∈ Display.drawTargetsFrom x_pos y_pos j bytes
        ↔ ∃ jj i, jj < bytes.length ∧ i < 8
            ∧ Display.bitOf (bytes.getD jj 0) i = true
            ∧ t = Display.targetCell x_pos y_pos (j + jj) i := by
  intro bytes
  induction bytes with
  | nil =>
      intro j t
      simp [Display.drawTargetsFrom]
  | cons b rest ih =>
      intro j t
      show t ∈ Display.rowTargets x_pos y_pos j b
            ++ Display.drawTargetsFrom x_pos y_pos (j + 1) rest ↔ _
      rw [List.mem_append]
      constructor
      · rintro (hrow | htail)
        · obtain ⟨i, hi, ht⟩ := by
            simpa [Display.rowTargets, List.mem_map, List.mem_filter,
              List.mem_range] using hrow
          exact ⟨0, i, by simp, hi.1, by simpa using hi.2, by simpa using ht.symm⟩
        · obtain ⟨jj, i, h1, h2, h3, h4⟩ := (ih (j + 1) t).1 htail
          refine ⟨jj + 1, i, by simpa using h1, h2, by simpa using h3, ?_⟩
          rw [h4]
          congr 1
          omega
      · rintro ⟨jj, i, h1, h2, h3, h4⟩
        cases jj with
        | zero =>
            left
            simp only [Display.rowTargets, List.mem_map, List.mem_filter,
              List.mem_range]
            exact ⟨i, ⟨h2, by simpa using h3⟩, by simpa using h4.symm⟩
        | succ jj' =>
            right
            refine (ih (j + 1) t).2 ⟨jj', i, by simpa using h1, h2,
              by simpa using h3, ?_⟩
            rw [h4]
            congr 1
            omega

/-- Within one 32-row wrap period, distinct (row, column) bit positions
target distinct cells. -/
theorem targetCell_inj (x_pos y_pos j1 i1 j2 i2 : Nat)
    (hj1 : j1 < 32) (hj2 : j2 < 32) (hi1 : i1 < 8) (hi2 : i2 < 8)
    (h : Display.targetCell x_pos y_pos j1 i1
          = Display.targetCell x_pos y_pos j2 i2) :
    j1 = j2 ∧ i1 = i2 := by
  unfold Display.targetCell at h
  omega

/-- For a sprite of at most 32 rows the target cells are pairwise
distinct. -/
theorem nodup_drawTargetsFrom (x_pos y_pos : Nat) :
    ∀ (bytes : List Nat) (j : Nat), j + bytes.length ≤ 32 →
      (Display.drawTargetsFrom x_pos y_pos j bytes).Nodup := by
  intro bytes
  induction bytes with
  | nil => intro j _; exact List.nodup_nil
  | cons b rest ih =>
      intro j hlen
      have hlen' : j < 32 := by simp at hlen; omega
      show (Display.rowTargets x_pos y_pos j b
              ++ Display.drawTargetsFrom x_pos y_pos (j + 1) rest).Nodup
      rw [List.nodup_append]
      refine ⟨?_, ih (j + 1) (by simp at hlen ⊢; omega), ?_⟩
      · apply List.Nodup.map_on
        · intro i1 h1 i2 h2 he
          have hi1 : i1 < 8 := by
            simp only [List.mem_filter, List.mem_range] at h1; exact h1.1
          have hi2 : i2 < 8 := by
            simp only [List.mem_filter, List.mem_range] at h2; exact h2.1
          exact (targetCell_inj x_pos y_pos j i1 j i2 hlen' hlen' hi1 hi2 he).2
        · exact (List.nodup_range 8).filter _
      · intro t hrow htail
        have hlen2 : j + rest.length + 1 ≤ 32 := by
          have := hlen
          simp at this
          omega
        obtain ⟨i, hi, ht⟩ := by
          simpa [Display.rowTargets, List.mem_map, List.mem_filter,
            List.mem_range] using hrow
        obtain ⟨jj, i', h1, h2, h3, h4⟩ :=
          (mem_drawTargetsFrom x_pos y_pos rest (j + 1) t).1 htail
        have : j = j + 1 + jj :=
          (targetCell_inj x_pos y_pos j i (j + 1 + jj) i'
            hlen' (by omega) hi.1 h2 (by rw [ht, ← h4])).1
        omega

/-- C5 counterexample: for sprite lists taller than the 32-row wrap
period the claim fails: a 33-row sprite whose rows 0 and 32 both have
bit 7 set XORs cell 0 twice when drawn at (0, 0), and the collision
flag — which the code checks against the intermediate state before
each individual XOR — returns 1 on a framebuffer whose every cell was
0 beforehand, although no XORed cell was 1 before the draw.  The cell
also ends at 0 rather than flipped. -/
theorem c5_counterexample :
    Display.new.video = (fun _ => 0)
  ∧ (Display.new.draw 0 0 (0x80 :: (List.replicate 31 0 ++ [0x80]))).2 = 1
  ∧ (Display.new.draw 0 0 (0x80 :: (List.replicate 31 0 ++ [0x80]))).1.video 0
      = 0 :=
  ⟨rfl, by decide, by decide⟩

/-- C5 (amended): for every position and every sprite byte list of at
most 32 rows (every sprite reachable from `Dxyn` has at most 15), the
draw XORs exactly the cells `((y+j) mod 32) * 64 + ((x+i) mod 64)` of
the set bits `(j, i)`, leaves all other cells unchanged, returns
collision flag 1 exactly when at least one XORed cell was 1
beforehand (0 otherwise), and sets the dirty flag.  For taller lists
two rows can wrap onto the same cell and the collision flag can report
a collision caused by the draw itself (see the counterexample). -/
theorem c5_draw_amended (d : Display) (x_pos y_pos : Nat) (bytes : List Nat)
    (hlen : bytes.length ≤ 32) :
    (∀ m, (d.draw x_pos y_pos bytes).1.video m
        = if m ∈ Display.drawTargets x_pos y_pos bytes then d.video m ^^^ 1
          else d.video m)
  ∧ ((d.draw x_pos y_pos bytes).2 = 1
        ↔ ∃ k ∈ Display.drawTargets x_pos y_pos bytes, d.video k = 1)
  ∧ ((d.draw x_pos y_pos bytes).2 = 0
        ↔ ¬ ∃ k ∈ Display.drawTargets x_pos y_pos bytes, d.video k = 1)
  ∧ (∀ t, t ∈ Display.drawTargets x_pos y_pos bytes
        ↔ ∃ j i, j < bytes.length ∧ i < 8
            ∧ Display.bitOf (bytes.getD j 0) i = true
            ∧ t = ((y_pos + j) % 32) * 64 + ((x_pos + i) % 64))
  ∧ (d.draw x_pos y_pos bytes).1.dirty = true := by
  have hnd : (Display.drawTargets x_pos y_pos bytes).Nodup :=
    nodup_drawTargetsFrom x_pos y_pos bytes 0 (by omega)
  rw [draw_eq_targets]
  refine ⟨?_, ?_, ?_, ?_, rfl⟩
  · intro m
    exact flips_video _ d.video 0 hnd m
  · rw [flips_collision _ d.video 0 hnd]
    by_cases h : (Display.drawTargets x_pos y_pos bytes).any
        (fun k => d.video k == 1)
    · simp only [h, if_pos]
      obtain ⟨k, hk, hbeq⟩ := List.any_eq_true.1 h
      exact ⟨fun _ => ⟨k, hk, by simpa using hbeq⟩, fun _ => by trivial⟩
    · simp only [h, Bool.false_eq_true, ite_false]
      constructor
      · intro h01; exact absurd h01 (by omega)
      · rintro ⟨k, hk, hv⟩
        exact absurd (List.any_eq_true.2 ⟨k, hk, by simpa using hv⟩) h
  · rw [flips_collision _ d.video 0 hnd]
    by_cases h : (Display.drawTargets x_pos y_pos bytes).any
        (fun k => d.video k == 1)
    · simp only [h, if_pos]
      obtain ⟨k, hk, hbeq⟩ := List.any_eq_true.1 h
      constructor
      · intro h10; exact absurd h10 (by omega)
      · intro hno; exact absurd ⟨k, hk, by simpa using hbeq⟩ hno
    · simp only [h, Bool.false_eq_true, ite_false]
      refine ⟨fun _ hex => ?_, fun _ => by trivial⟩
      obtain ⟨k, hk, hv⟩ := hex
      exact absurd (List.any_eq_true.2 ⟨k, hk, by simpa using hv⟩) h
  · intro t
    have := mem_drawTargetsFrom x_pos y_pos bytes 0 t
    simpa [Display.targetCell] using this

/-- Witness for C5 (amended): the spec's wrap example, a one-row
sprite `0xC0` drawn at `(63, 0)` on the fresh display; its two set
bits target cells 63 = `(63,0)` and 0 = `(0,0)`. -/
theorem c5_draw_amended_witness :
    ((Display.new.draw 63 0 [0xC0]).1.video 63
        = (if 63 ∈ Display.drawTargets 63 0 [0xC0]
           then Display.new.video 63 ^^^ 1 else Display.new.video 63))
  ∧ ((Display.new.draw 63 0 [0xC0]).1.video 0
        = (if 0 ∈ Display.drawTargets 63 0 [0xC0]
           then Display.new.video 0 ^^^ 1 else Display.new.video 0))
  ∧ (Display.new.draw 63 0 [0xC0]).1.dirty = true
  ∧ Display.drawTargets 63 0 [0xC0] = [63, 0] :=
  ⟨(c5_draw_amended Display.new 63 0 [0xC0] (by decide)).1 63,
   (c5_draw_amended Display.new 63 0 [0xC0] (by decide)).1 0,
   (c5_draw_amended Display.new 63 0 [0xC0] (by decide)).2.2.2.2,
   by decide⟩
